import Mathlib

/-!
Verification of the `auth` worker's license-check core.

The development embeds, as executable Lean definitions:
  * `calculateHash` — the HMAC-SHA256 keyed digest from `src/utils/hash.ts`
    (the WebCrypto `crypto.subtle` HMAC/SHA-256 calls are realised by a
    from-scratch SHA-256 over byte lists modelled as `List Nat`);
  * the semantic-version matcher (`Semver.valid`, `Semver.validRange`,
    `Semver.satisfies`) — the `semver` npm package is a dependency whose
    source is not part of this repository, so the matcher is modelled from
    the specification's grammar (spec section 4.1);
  * `checkHandler` — the request handler from `src/handlers/check.ts`;
  * `checkHandlerOrdered` — the handler variant embedded in
    `migrations/0001_init.sql` (explicit `validRange` skip);
  * `checkHandlerE` / `fetchCheck` — the handler with a fallible store and
    the outer `fetch` boundary from `src/index.ts`;
  * `checkHandlerSt` — the handler with the store threaded as state,
    recording that the single database access is a read.
-/

/-- Truncate to a 32-bit word. -/
def w32 (n : Nat) : Nat := n % 4294967296

/-- Rotate a 32-bit word right by n positions. -/
def rotr32 (x n : Nat) : Nat := w32 ((x >>> n) ||| (x <<< (32 - n)))

/-- The eight-word SHA-256 working state. -/
structure Hash8 where
  a : Nat
  b : Nat
  c : Nat
  d : Nat
  e : Nat
  f : Nat
  g : Nat
  h : Nat
deriving DecidableEq

/-- Initial SHA-256 chaining state, FIPS 180-4 values written in decimal. -/
def sha256Init : Hash8 :=
  ⟨1779033703, 3144134277, 1013904242,
   2773480762, 1359893119, 2600822924,
   528734635, 1541459225⟩

/-- The 64 round constants of SHA-256, written in decimal. -/
def sha256K : List Nat :=
  [1116352408, 1899447441, 3049323471, 3921009573, 961987163, 1508970993,
   2453635748, 2870763221, 3624381080, 310598401, 607225278, 1426881987,
   1925078388, 2162078206, 2614888103, 3248222580, 3835390401, 4022224774,
   264347078, 604807628, 770255983, 1249150122, 1555081692, 1996064986,
   2554220882, 2821834349, 2952996808, 3210313671, 3336571891, 3584528711,
   113926993, 338241895, 666307205, 773529912, 1294757372, 1396182291,
   1695183700, 1986661051, 2177026350, 2456956037, 2730485921, 2820302411,
   3259730800, 3345764771, 3516065817, 3600352804, 4094571909, 275423344,
   430227734, 506948616, 659060556, 883997877, 958139571, 1322822218,
   1537002063, 1747873779, 1955562222, 2024104815, 2227730452, 2361852424,
   2428436474, 2756734187, 3204031479, 3329325298]

/-- Extend sixteen message words to the full 64-word schedule.
The accumulator holds the words produced so far in reverse order. -/
def extendSchedule : Nat → List Nat → List Nat
  | 0, acc => acc.reverse
  | n + 1, acc =>
    let w2 := acc.getD 1 0
    let w7 := acc.getD 6 0
    let w15 := acc.getD 14 0
    let w16 := acc.getD 15 0
    let s0 := (rotr32 w15 7) ^^^ (rotr32 w15 18) ^^^ (w15 >>> 3)
    let s1 := (rotr32 w2 17) ^^^ (rotr32 w2 19) ^^^ (w2 >>> 10)
    extendSchedule n (w32 (w16 + s0 + w7 + s1) :: acc)

/-- One SHA-256 round. -/
def sha256Round (st : Hash8) (kw : Nat × Nat) : Hash8 :=
  let s1 := (rotr32 st.e 6) ^^^ (rotr32 st.e 11) ^^^ (rotr32 st.e 25)
  let ch := (st.e &&& st.f) ^^^ ((4294967295 - st.e) &&& st.g)
  let t1 := w32 (st.h + s1 + ch + kw.1 + kw.2)
  let s0 := (rotr32 st.a 2) ^^^ (rotr32 st.a 13) ^^^ (rotr32 st.a 22)
  let mj := (st.a &&& st.b) ^^^ (st.a &&& st.c) ^^^ (st.b &&& st.c)
  let t2 := w32 (s0 + mj)
  ⟨w32 (t1 + t2), st.a, st.b, st.c, w32 (st.d + t1), st.e, st.f, st.g⟩

/-- Compress one 64-byte block (given as sixteen 32-bit words) into the state. -/
def sha256Compress (st : Hash8) (ws : List Nat) : Hash8 :=
  let sched := extendSchedule 48 ws.reverse
  let r := (sched.zip sha256K).foldl sha256Round st
  ⟨w32 (st.a + r.a), w32 (st.b + r.b), w32 (st.c + r.c), w32 (st.d + r.d),
   w32 (st.e + r.e), w32 (st.f + r.f), w32 (st.g + r.g), w32 (st.h + r.h)⟩

/-- Group a byte list into big-endian 32-bit words. -/
def bytesToWords : Nat → List Nat → List Nat
  | 0, _ => []
  | _, [] => []
  | n + 1, b0 :: rest =>
    let b1 := rest.getD 0 0
    let b2 := rest.getD 1 0
    let b3 := rest.getD 2 0
    (b0 <<< 24 ||| b1 <<< 16 ||| b2 <<< 8 ||| b3) :: bytesToWords n (rest.drop 3)

/-- Process the padded message, 64 bytes at a time. -/
def sha256Blocks : Nat → Hash8 → List Nat → Hash8
  | 0, st, _ => st
  | _, st, [] => st
  | n + 1, st, bytes =>
    sha256Blocks n (sha256Compress st (bytesToWords 16 (bytes.take 64))) (bytes.drop 64)

/-- SHA-256 padding: append 0x80, zeros to 56 mod 64, then the 64-bit bit length. -/
def sha256Pad (msg : List Nat) : List Nat :=
  let len := msg.length
  let r := (len + 1) % 64
  let zeros := (120 - r) % 64
  let bitLen := 8 * len
  msg ++ [0x80] ++ List.replicate zeros 0 ++
    [(bitLen >>> 56) % 256, (bitLen >>> 48) % 256, (bitLen >>> 40) % 256, (bitLen >>> 32) % 256,
     (bitLen >>> 24) % 256, (bitLen >>> 16) % 256, (bitLen >>> 8) % 256, bitLen % 256]

/-- Serialize the final state to the 32 output bytes. -/
def hash8Bytes (st : Hash8) : List Nat :=
  [(st.a >>> 24) % 256, (st.a >>> 16) % 256, (st.a >>> 8) % 256, st.a % 256,
   (st.b >>> 24) % 256, (st.b >>> 16) % 256, (st.b >>> 8) % 256, st.b % 256,
   (st.c >>> 24) % 256, (st.c >>> 16) % 256, (st.c >>> 8) % 256, st.c % 256,
   (st.d >>> 24) % 256, (st.d >>> 16) % 256, (st.d >>> 8) % 256, st.d % 256,
   (st.e >>> 24) % 256, (st.e >>> 16) % 256, (st.e >>> 8) % 256, st.e % 256,
   (st.f >>> 24) % 256, (st.f >>> 16) % 256, (st.f >>> 8) % 256, st.f % 256,
   (st.g >>> 24) % 256, (st.g >>> 16) % 256, (st.g >>> 8) % 256, st.g % 256,
   (st.h >>> 24) % 256, (st.h >>> 16) % 256, (st.h >>> 8) % 256, st.h % 256]

/-- SHA-256 of a byte list (checked against the FIPS 180-4 test vectors). -/
def sha256 (msg : List Nat) : List Nat :=
  let padded := sha256Pad msg
  hash8Bytes (sha256Blocks (padded.length / 64) sha256Init padded)

/-- UTF-8 encoding of a single code point. -/
def utf8EncodeNat (n : Nat) : List Nat :=
  if n < 0x80 then [n]
  else if n < 0x800 then [0xC0 ||| (n >>> 6), 0x80 ||| (n &&& 0x3F)]
  else if n < 0x10000 then
    [0xE0 ||| (n >>> 12), 0x80 ||| ((n >>> 6) &&& 0x3F), 0x80 ||| (n &&& 0x3F)]
  else
    [0xF0 ||| (n >>> 18), 0x80 ||| ((n >>> 12) &&& 0x3F),
     0x80 ||| ((n >>> 6) &&& 0x3F), 0x80 ||| (n &&& 0x3F)]

/-- UTF-8 bytes of a string, as `new TextEncoder().encode` produces. -/
def utf8Bytes (s : String) : List Nat :=
  s.data.foldr (fun c acc => utf8EncodeNat c.toNat ++ acc) []

/-- HMAC-SHA256 over byte lists (RFC 2104 with a 64-byte block size),
realising the `crypto.subtle.importKey`/`sign` pair of `src/utils/hash.ts`. -/
def hmacSha256 (key msg : List Nat) : List Nat :=
  let k0 := if key.length > 64 then sha256 key else key
  let kp := k0 ++ List.replicate (64 - k0.length) 0
  let inner := sha256 ((kp.map (fun b => b ^^^ 0x36)) ++ msg)
  sha256 ((kp.map (fun b => b ^^^ 0x5c)) ++ inner)

/-- Lowercase hex digit for a value below 16. -/
def hexDigit (n : Nat) : Char :=
  if n < 10 then Char.ofNat (48 + n) else Char.ofNat (87 + n)

/-- Two lowercase hex characters for one byte: the image of the JS expression
`b.toString(16).padStart(2, zero)` for bytes below 256. -/
def hexByte (b : Nat) : List Char :=
  [hexDigit ((b / 16) % 16), hexDigit (b % 16)]

/-- Lowercase hex rendering of a byte list. -/
def toHex (bytes : List Nat) : String :=
  ⟨bytes.foldr (fun b acc => hexByte b ++ acc) []⟩

/-- The keyed digest of `src/utils/hash.ts`: HMAC-SHA256 of the salt under the
key, rendered as lowercase hex. -/
def calculateHash (key salt : String) : String :=
  toHex (hmacSha256 (utf8Bytes key) (utf8Bytes salt))

namespace Semver

/-- Split a character list on every occurrence of the separator, like the JS
`String.prototype.split` with a single-character separator. -/
def splitOnChar (c : Char) : List Char → List (List Char)
  | [] => [[]]
  | x :: xs =>
    match splitOnChar c xs with
    | [] => [[]]
    | g :: gs => if x = c then [] :: g :: gs else (x :: g) :: gs

/-- Split at the first occurrence of a character, or return none if absent. -/
def breakAtFirst (c : Char) : List Char → Option (List Char × List Char)
  | [] => none
  | x :: xs =>
    if x = c then some ([], xs)
    else (breakAtFirst c xs).map (fun p => (x :: p.1, p.2))

/-- Decimal digit test. -/
def isDigitChar (c : Char) : Bool := 48 ≤ c.toNat && c.toNat ≤ 57

/-- Decimal value of a digit list. -/
def natOfDigits (cs : List Char) : Nat :=
  cs.foldl (fun a c => a * 10 + (c.toNat - 48)) 0

/-- Parse a numeric identifier: non-empty, all digits, no leading zero. -/
def parseNumericId (cs : List Char) : Option Nat :=
  if cs.isEmpty then none
  else if cs.all isDigitChar then
    match cs with
    | '0' :: _ :: _ => none
    | _ => some (natOfDigits cs)
  else none

/-- Characters allowed in prerelease and build identifiers. -/
def isIdentChar (c : Char) : Bool :=
  isDigitChar c || (97 ≤ c.toNat && c.toNat ≤ 122) ||
    (65 ≤ c.toNat && c.toNat ≤ 90) || c = '-'

/-- A valid prerelease identifier: non-empty, identifier characters only,
and if purely numeric then without leading zeros. -/
def validPreId (cs : List Char) : Bool :=
  !cs.isEmpty && cs.all isIdentChar &&
    (!(cs.all isDigitChar) || (parseNumericId cs).isSome)

/-- A valid build identifier: non-empty, identifier characters only. -/
def validBuildId (cs : List Char) : Bool :=
  !cs.isEmpty && cs.all isIdentChar

/-- A parsed semantic version. -/
structure SemVer where
  major : Nat
  minor : Nat
  patch : Nat
  prerelease : List String
  build : List String
deriving DecidableEq

/-- Parse the dotted major.minor.patch core: exactly three numeric components. -/
def parseMMP (cs : List Char) : Option (Nat × Nat × Nat) :=
  match splitOnChar '.' cs with
  | [a, b, c] => do
    let ma ← parseNumericId a
    let mi ← parseNumericId b
    let pa ← parseNumericId c
    some (ma, mi, pa)
  | _ => none

/-- Modelled from the spec: the semantic-version grammar of section 4.1 (the
npm semver package the handler imports is a dependency, not part of this
repository). A version is major.minor.patch, each a numeric component,
optionally followed by a hyphen-separated prerelease and a plus-separated
build part; anything else (fewer components, non-numeric components,
trailing garbage) fails to parse. -/
def parseSemVer (cs : List Char) : Option SemVer :=
  let core := match breakAtFirst '+' cs with
    | none => cs
    | some p => p.1
  let buildPart := match breakAtFirst '+' cs with
    | none => none
    | some p => some p.2
  let mmp := match breakAtFirst '-' core with
    | none => core
    | some p => p.1
  let prePart := match breakAtFirst '-' core with
    | none => none
    | some p => some p.2
  match parseMMP mmp with
  | none => none
  | some (ma, mi, pa) =>
    let preIds : Option (List String) :=
      match prePart with
      | none => some []
      | some p =>
        let ids := splitOnChar '.' p
        if ids.all validPreId then some (ids.map (fun l => String.mk l)) else none
    let buildIds : Option (List String) :=
      match buildPart with
      | none => some []
      | some b =>
        let ids := splitOnChar '.' b
        if ids.all validBuildId then some (ids.map (fun l => String.mk l)) else none
    match preIds, buildIds with
    | some ps, some bs => some ⟨ma, mi, pa, ps, bs⟩
    | _, _ => none

/-- Parse a version string. -/
def parseVersion (s : String) : Option SemVer := parseSemVer s.data

/-- Three-way comparison of naturals. -/
def compareNat (a b : Nat) : Ordering :=
  if a < b then .lt else if a = b then .eq else .gt

/-- Lexicographic comparison of character lists by code point. -/
def compareCharList : List Char → List Char → Ordering
  | [], [] => .eq
  | [], _ :: _ => .lt
  | _ :: _, [] => .gt
  | a :: as, b :: bs =>
    match compareNat a.toNat b.toNat with
    | .eq => compareCharList as bs
    | o => o

/-- Compare two prerelease identifiers: numeric identifiers compare as
numbers and order before alphanumeric ones, which compare lexically. -/
def compareIds (a b : String) : Ordering :=
  if a.data.all isDigitChar then
    if b.data.all isDigitChar then compareNat (natOfDigits a.data) (natOfDigits b.data)
    else .lt
  else
    if b.data.all isDigitChar then .gt
    else compareCharList a.data b.data

/-- Compare prerelease identifier lists element-wise; a proper prefix
orders first. -/
def comparePreLists : List String → List String → Ordering
  | [], [] => .eq
  | [], _ :: _ => .lt
  | _ :: _, [] => .gt
  | a :: as, b :: bs =>
    match compareIds a b with
    | .eq => comparePreLists as bs
    | o => o

/-- Modelled from the spec: standard semantic-version precedence — numeric
comparison on major, then minor, then patch; a version with a prerelease
component orders before the same numeric version without one; build
metadata is ignored. -/
def compareSemVer (x y : SemVer) : Ordering :=
  match compareNat x.major y.major with
  | .eq =>
    match compareNat x.minor y.minor with
    | .eq =>
      match compareNat x.patch y.patch with
      | .eq =>
        match x.prerelease, y.prerelease with
        | [], [] => .eq
        | [], _ :: _ => .gt
        | _ :: _, [] => .lt
        | a, b => comparePreLists a b
      | o => o
    | o => o
  | o => o

/-- Strict order on versions. -/
def vLt (x y : SemVer) : Bool :=
  match compareSemVer x y with
  | .lt => true
  | _ => false

/-- Equality of versions under precedence (build metadata ignored). -/
def vEq (x y : SemVer) : Bool :=
  match compareSemVer x y with
  | .eq => true
  | _ => false

/-- Non-strict order on versions. -/
def vLe (x y : SemVer) : Bool := vLt x y || vEq x y

/-- One clause of a range expression. -/
inductive RangeClause where
  | star : RangeClause
  | cmpEq : SemVer → RangeClause
  | cmpLt : SemVer → RangeClause
  | cmpLe : SemVer → RangeClause
  | cmpGt : SemVer → RangeClause
  | cmpGe : SemVer → RangeClause
  | caret : SemVer → RangeClause
  | tilde : SemVer → RangeClause
deriving DecidableEq

/-- Modelled from the spec: one clause is the wildcard, a comparator
followed by a version, a caret or tilde expression, or a bare version
(an exact match). -/
def parseClause (tok : List Char) : Option RangeClause :=
  match tok with
  | ['*'] => some .star
  | '^' :: rest => (parseSemVer rest).map .caret
  | '~' :: rest => (parseSemVer rest).map .tilde
  | '>' :: '=' :: rest => (parseSemVer rest).map .cmpGe
  | '<' :: '=' :: rest => (parseSemVer rest).map .cmpLe
  | '>' :: rest => (parseSemVer rest).map .cmpGt
  | '<' :: rest => (parseSemVer rest).map .cmpLt
  | '=' :: rest => (parseSemVer rest).map .cmpEq
  | _ => (parseSemVer tok).map .cmpEq

/-- Parse every clause or fail. -/
def parseClauses : List (List Char) → Option (List RangeClause)
  | [] => some []
  | t :: ts =>
    match parseClause t, parseClauses ts with
    | some c, some cs => some (c :: cs)
    | _, _ => none

/-- Modelled from the spec: a range expression is a space-separated
conjunction of clauses; it parses only if every clause does. -/
def parseRange (s : String) : Option (List RangeClause) :=
  parseClauses ((splitOnChar ' ' s.data).filter (fun t => !t.isEmpty))

/-- Exclusive upper bound of a caret clause: the next increment of the
leftmost non-zero component (zero-major versions only admit patch changes). -/
def caretUpper (v : SemVer) : SemVer :=
  if v.major > 0 then ⟨v.major + 1, 0, 0, [], []⟩
  else if v.minor > 0 then ⟨0, v.minor + 1, 0, [], []⟩
  else ⟨0, 0, v.patch + 1, [], []⟩

/-- Exclusive upper bound of a tilde clause: the next minor. -/
def tildeUpper (v : SemVer) : SemVer :=
  ⟨v.major, v.minor + 1, 0, [], []⟩

/-- Does a version satisfy one clause? Comparator lower bounds are
inclusive for >= and <=, exclusive for > and <. -/
def evalClause (v : SemVer) : RangeClause → Bool
  | .star => true
  | .cmpEq w => vEq v w
  | .cmpLt w => vLt v w
  | .cmpLe w => vLe v w
  | .cmpGt w => vLt w v
  | .cmpGe w => vLe w v
  | .caret w => vLe w v && vLt v (caretUpper w)
  | .tilde w => vLe w v && vLt v (tildeUpper w)

/-- Modelled from the spec: semver.valid truthiness — does the string parse
as a version? -/
def valid (s : String) : Bool := (parseVersion s).isSome

/-- Modelled from the spec: isValidRange — does the string parse as a range
expression? -/
def validRange (s : String) : Bool := (parseRange s).isSome

/-- Modelled from the spec: satisfies(version, range) — true exactly when
both sides parse and the version meets every clause of the conjunction;
false on an unparsable version or range rather than an error. -/
def satisfies (version range : String) : Bool :=
  match parseVersion version, parseRange range with
  | some v, some cs => cs.all (evalClause v)
  | _, _ => false

end Semver

/-- One stored key record, the projection of a product_keys row the handler
reads: SELECT key_value, semver_range FROM product_keys. -/
structure KeyRecord where
  key_value : String
  semver_range : String
deriving DecidableEq

/-- An HTTP response as the handler builds it: status, body and the
explicitly set Content-Type header, if any. -/
structure Resp where
  status : Nat
  body : String
  contentType : Option String
deriving DecidableEq

/-- The 400 response for a missing or empty parameter. -/
def missingParamsResp : Resp :=
  ⟨400, "Missing parameters: val, version, or salt", none⟩

/-- The 400 response for a present but unparsable version. -/
def invalidVersionResp : Resp :=
  ⟨400, "Invalid version format", none⟩

/-- The 403 denial response with its fixed body. -/
def deniedResp : Resp :=
  ⟨403, "Invalid ID or Version", none⟩

/-- The generic 500 response of the outer fetch boundary in src/index.ts. -/
def serverErrorResp : Resp :=
  ⟨500, "Internal Server Error", none⟩

/-- The 200 success response: the server attestation digest as plain text. -/
def authResp (serverKey salt : String) : Resp :=
  ⟨200, calculateHash serverKey salt, some "text/plain"⟩

/-- JS falsiness of a query parameter: searchParams.get yields null when the
parameter is absent, and both null and the empty string are falsy. -/
def falsy : Option String → Bool
  | none => true
  | some s => decide (s = "")

/-- The record scan of checkHandler in src/handlers/check.ts: for each row,
if the version satisfies the range, compare the keyed digest with val and
stop at the first match; otherwise keep scanning. -/
def scanKeys (version salt val : String) : List KeyRecord → Bool
  | [] => false
  | r :: rest =>
    if Semver.satisfies version r.semver_range then
      if calculateHash r.key_value salt = val then true
      else scanKeys version salt val rest
    else scanKeys version salt val rest

/-- The checkHandler of src/handlers/check.ts, with the rows the store
returned passed as a list and the store read assumed successful. -/
def checkHandler (val? version? salt? : Option String)
    (records : List KeyRecord) (serverKey : String) : Resp :=
  if falsy val? || falsy version? || falsy salt? then missingParamsResp
  else if !(Semver.valid (version?.getD "")) then invalidVersionResp
  else if !(scanKeys (version?.getD "") (salt?.getD "") (val?.getD "") records) then deniedResp
  else authResp serverKey (salt?.getD "")

/-- The record scan of the checkHandler variant embedded in
migrations/0001_init.sql: rows with a syntactically invalid range are
skipped with continue before the satisfies test. -/
def scanKeysValidated (version salt val : String) : List KeyRecord → Bool
  | [] => false
  | r :: rest =>
    if !(Semver.validRange r.semver_range) then scanKeysValidated version salt val rest
    else if Semver.satisfies version r.semver_range then
      if calculateHash r.key_value salt = val then true
      else scanKeysValidated version salt val rest
    else scanKeysValidated version salt val rest

/-- The checkHandler variant embedded in migrations/0001_init.sql, given the
same record sequence. -/
def checkHandlerOrdered (val? version? salt? : Option String)
    (records : List KeyRecord) (serverKey : String) : Resp :=
  if falsy val? || falsy version? || falsy salt? then missingParamsResp
  else if !(Semver.valid (version?.getD "")) then invalidVersionResp
  else if !(scanKeysValidated (version?.getD "") (salt?.getD "") (val?.getD "") records) then deniedResp
  else authResp serverKey (salt?.getD "")

/-- checkHandler with a fallible store: the awaited database call either
returns the rows or raises, and the handler does not catch — parameter
validation happens before the store access, a store failure after it
propagates out as the error. -/
def checkHandlerE (val? version? salt? : Option String)
    (store : Except String (List KeyRecord)) (serverKey : String) :
    Except String Resp :=
  if falsy val? || falsy version? || falsy salt? then .ok missingParamsResp
  else if !(Semver.valid (version?.getD "")) then .ok invalidVersionResp
  else
    match store with
    | .error e => .error e
    | .ok results =>
      if !(scanKeys (version?.getD "") (salt?.getD "") (val?.getD "") results) then .ok deniedResp
      else .ok (authResp serverKey (salt?.getD ""))

/-- The outer fetch boundary of src/index.ts applied to a /check request:
any error escaping the handler is caught and mapped to the generic 500. -/
def fetchCheck (val? version? salt? : Option String)
    (store : Except String (List KeyRecord)) (serverKey : String) : Resp :=
  match checkHandlerE val? version? salt? store serverKey with
  | .ok r => r
  | .error _ => serverErrorResp

/-- checkHandler with the store threaded as explicit state: the single
SELECT is a read, every branch leaves the record set unchanged. -/
def checkHandlerSt (val? version? salt? : Option String)
    (st : List KeyRecord) (serverKey : String) : Resp × List KeyRecord :=
  if falsy val? || falsy version? || falsy salt? then (missingParamsResp, st)
  else if !(Semver.valid (version?.getD "")) then (invalidVersionResp, st)
  else if !(scanKeys (version?.getD "") (salt?.getD "") (val?.getD "") st) then
    (deniedResp, st)
  else (authResp serverKey (salt?.getD ""), st)

/-- A lowercase hexadecimal character: a decimal digit or a through f. -/
def isLowerHexChar (c : Char) : Bool :=
  Semver.isDigitChar c || (97 ≤ c.toNat && c.toNat ≤ 102)

/-- The success condition of the scan over a record list. -/
def scanHit (version salt val : String) (records : List KeyRecord) : Prop :=
  ∃ r, r ∈ records ∧ Semver.satisfies version r.semver_range = true ∧
    calculateHash r.key_value salt = val

theorem scanHit_cons_iff (version salt val : String) (r : KeyRecord)
    (rest : List KeyRecord) :
    scanHit version salt val (r :: rest) ↔
      (Semver.satisfies version r.semver_range = true ∧
        calculateHash r.key_value salt = val) ∨ scanHit version salt val rest := by
  unfold scanHit
  constructor
  · rintro ⟨x, hx, h1, h2⟩
    rcases List.mem_cons.mp hx with h | h
    · subst h; exact Or.inl ⟨h1, h2⟩
    · exact Or.inr ⟨x, h, h1, h2⟩
  · rintro (⟨h1, h2⟩ | ⟨x, hx, h1, h2⟩)
    · exact ⟨r, List.mem_cons_self r rest, h1, h2⟩
    · exact ⟨x, List.mem_cons_of_mem r hx, h1, h2⟩

theorem scanKeys_true_iff (version salt val : String) (records : List KeyRecord) :
    scanKeys version salt val records = true ↔ scanHit version salt val records := by
  induction records with
  | nil =>
    constructor
    · intro h; cases h
    · rintro ⟨x, hx, _, _⟩; cases hx
  | cons r rest ih =>
    have step : scanKeys version salt val (r :: rest) =
        if Semver.satisfies version r.semver_range = true then
          (if calculateHash r.key_value salt = val then true
           else scanKeys version salt val rest)
        else scanKeys version salt val rest := rfl
    rw [step, scanHit_cons_iff]
    by_cases hs : Semver.satisfies version r.semver_range = true
    · rw [if_pos hs]
      by_cases hh : calculateHash r.key_value salt = val
      · rw [if_pos hh]
        constructor
        · intro _; exact Or.inl ⟨hs, hh⟩
        · intro _; rfl
      · rw [if_neg hh, ih]
        constructor
        · intro h; exact Or.inr h
        · rintro (⟨_, h2⟩ | h)
          · exact absurd h2 hh
          · exact h
    · rw [if_neg hs, ih]
      constructor
      · intro h; exact Or.inr h
      · rintro (⟨h1, _⟩ | h)
        · exact absurd h1 hs
        · exact h
theorem satisfies_false_of_invalidRange (v r : String)
    (h : Semver.validRange r = false) : Semver.satisfies v r = false := by
  unfold Semver.satisfies
  unfold Semver.validRange at h
  rcases hp : Semver.parseRange r with _ | cs
  · rcases Semver.parseVersion v with _ | w <;> rfl
  · rw [hp] at h; simp at h

theorem scanKeys_skip_invalid (version salt val : String) (r : KeyRecord)
    (pre post : List KeyRecord) (h : Semver.validRange r.semver_range = false) :
    scanKeys version salt val (pre ++ r :: post) =
      scanKeys version salt val (pre ++ post) := by
  have hs : Semver.satisfies version r.semver_range = false :=
    satisfies_false_of_invalidRange version r.semver_range h
  induction pre with
  | nil =>
    have step : scanKeys version salt val (r :: post) =
        if Semver.satisfies version r.semver_range = true then
          (if calculateHash r.key_value salt = val then true
           else scanKeys version salt val post)
        else scanKeys version salt val post := rfl
    rw [List.nil_append, List.nil_append, step, if_neg (by simp [hs])]
  | cons p ps ih =>
    have stepL : scanKeys version salt val (p :: (ps ++ r :: post)) =
        if Semver.satisfies version p.semver_range = true then
          (if calculateHash p.key_value salt = val then true
           else scanKeys version salt val (ps ++ r :: post))
        else scanKeys version salt val (ps ++ r :: post) := rfl
    have stepR : scanKeys version salt val (p :: (ps ++ post)) =
        if Semver.satisfies version p.semver_range = true then
          (if calculateHash p.key_value salt = val then true
           else scanKeys version salt val (ps ++ post))
        else scanKeys version salt val (ps ++ post) := rfl
    rw [List.cons_append, List.cons_append, stepL, stepR, ih]

theorem scanKeys_eq_validated (version salt val : String)
    (records : List KeyRecord) :
    scanKeys version salt val records = scanKeysValidated version salt val records := by
  induction records with
  | nil => rfl
  | cons r rest ih =>
    have stepL : scanKeys version salt val (r :: rest) =
        if Semver.satisfies version r.semver_range = true then
          (if calculateHash r.key_value salt = val then true
           else scanKeys version salt val rest)
        else scanKeys version salt val rest := rfl
    have stepR : scanKeysValidated version salt val (r :: rest) =
        if (!Semver.validRange r.semver_range) = true then
          scanKeysValidated version salt val rest
        else if Semver.satisfies version r.semver_range = true then
          (if calculateHash r.key_value salt = val then true
           else scanKeysValidated version salt val rest)
        else scanKeysValidated version salt val rest := rfl
    rw [stepL, stepR]
    cases hv : Semver.validRange r.semver_range with
    | true => simp [ih]
    | false =>
      have hs : Semver.satisfies version r.semver_range = false :=
        satisfies_false_of_invalidRange version r.semver_range hv
      simp [hs, ih]

theorem hexDigit_lowerHex (n : Nat) (h : n < 16) :
    isLowerHexChar (hexDigit n) = true := by
  interval_cases n <;> decide

theorem toHex_cons (b : Nat) (bs : List Nat) :
    (toHex (b :: bs)).data = hexByte b ++ (toHex bs).data := rfl

theorem toHex_data_length (bytes : List Nat) :
    (toHex bytes).data.length = 2 * bytes.length := by
  induction bytes with
  | nil => rfl
  | cons b bs ih =>
    rw [toHex_cons, List.length_append, ih]
    show 2 + 2 * bs.length = 2 * (bs.length + 1)
    omega

theorem toHex_mem_lowerHex (bytes : List Nat) (c : Char)
    (hc : c ∈ (toHex bytes).data) : isLowerHexChar c = true := by
  induction bytes with
  | nil => cases hc
  | cons b bs ih =>
    rw [toHex_cons] at hc
    rcases List.mem_append.mp hc with h | h
    · rcases List.mem_cons.mp h with rfl | h2
      · exact hexDigit_lowerHex _ (Nat.mod_lt _ (by norm_num))
      · rcases List.mem_cons.mp h2 with rfl | h3
        · exact hexDigit_lowerHex _ (Nat.mod_lt _ (by norm_num))
        · cases h3
    · exact ih h

theorem calculateHash_length (key salt : String) :
    (calculateHash key salt).length = 64 := by
  show (toHex (hmacSha256 (utf8Bytes key) (utf8Bytes salt))).data.length = 64
  rw [toHex_data_length]
  have h32 : (hmacSha256 (utf8Bytes key) (utf8Bytes salt)).length = 32 := rfl
  rw [h32]

theorem calculateHash_lowerHex (key salt : String) (c : Char)
    (hc : c ∈ (calculateHash key salt).data) : isLowerHexChar c = true :=
  toHex_mem_lowerHex _ c hc

theorem calculateHash_ne_empty (key salt : String) : calculateHash key salt ≠ "" := by
  intro h
  have hl := calculateHash_length key salt
  rw [h] at hl
  exact absurd hl (by decide)

theorem valid_ne_empty (version : String) (hv : Semver.valid version = true) :
    version ≠ "" := by
  intro h
  rw [h] at hv
  exact absurd hv (by decide)

theorem checkHandler_wf (val version salt serverKey : String)
    (records : List KeyRecord)
    (hval : val ≠ "") (hsalt : salt ≠ "") (hv : Semver.valid version = true) :
    checkHandler (some val) (some version) (some salt) records serverKey =
      if scanKeys version salt val records = true then authResp serverKey salt
      else deniedResp := by
  have hver : version ≠ "" := valid_ne_empty version hv
  unfold checkHandler
  simp only [falsy, Option.getD_some, hv, Bool.not_true,
    decide_eq_false hval, decide_eq_false hver, decide_eq_false hsalt,
    Bool.or_self, Bool.or_false, Bool.false_eq_true, if_false]
  by_cases hscan : scanKeys version salt val records = true
  · rw [if_pos hscan, hscan]
    simp
  · have hf : scanKeys version salt val records = false := by
      revert hscan; cases scanKeys version salt val records <;> simp
    rw [if_neg hscan, hf]
    simp

/-- C1: for every well-formed request (val, version, salt non-empty, version a
valid semantic version) and every record list, the handler answers 200 exactly
when some record has its range satisfied by the version and its keyed digest
equal to val; otherwise it answers 403 with the fixed body Invalid ID or
Version, which names neither failed check. -/
theorem checkHandler_authenticated_iff (val version salt serverKey : String)
    (records : List KeyRecord)
    (hval : val ≠ "") (hver : version ≠ "") (hsalt : salt ≠ "")
    (hv : Semver.valid version = true) :
    ((checkHandler (some val) (some version) (some salt) records serverKey).status = 200 ↔
      ∃ r, r ∈ records ∧ Semver.satisfies version r.semver_range = true ∧
        calculateHash r.key_value salt = val) ∧
    ((checkHandler (some val) (some version) (some salt) records serverKey).status ≠ 200 →
      checkHandler (some val) (some version) (some salt) records serverKey =
        ⟨403, "Invalid ID or Version", none⟩) := by
  rw [checkHandler_wf val version salt serverKey records hval hsalt hv]
  by_cases hscan : scanKeys version salt val records = true
  · rw [if_pos hscan]
    constructor
    · constructor
      · intro _; exact (scanKeys_true_iff version salt val records).mp hscan
      · intro _; rfl
    · intro hne; exact absurd rfl hne
  · rw [if_neg hscan]
    constructor
    · constructor
      · intro h200; exact absurd h200 (by decide)
      · intro hex
        exact absurd ((scanKeys_true_iff version salt val records).mpr hex) hscan
    · intro _; rfl

/-- Witness for C1 at a concrete request over the empty record set. -/
theorem checkHandler_authenticated_iff_witness :
    ("x" : String) ≠ "" ∧ ("1.0.0" : String) ≠ "" ∧ ("s" : String) ≠ "" ∧
    Semver.valid "1.0.0" = true ∧
    (((checkHandler (some "x") (some "1.0.0") (some "s") [] "S").status = 200 ↔
      ∃ r, r ∈ ([] : List KeyRecord) ∧ Semver.satisfies "1.0.0" r.semver_range = true ∧
        calculateHash r.key_value "s" = "x") ∧
    ((checkHandler (some "x") (some "1.0.0") (some "s") [] "S").status ≠ 200 →
      checkHandler (some "x") (some "1.0.0") (some "s") [] "S" =
        ⟨403, "Invalid ID or Version", none⟩)) :=
  ⟨by decide, by decide, by decide, by decide,
   checkHandler_authenticated_iff "x" "1.0.0" "s" "S" []
     (by decide) (by decide) (by decide) (by decide)⟩

/-- C2: with two records whose ranges both match the requested version and a
val that equals the digest of the second record but not of the first, the scan
does not stop at the first record and the result is the authenticated
response. -/
theorem checkHandler_scan_complete (val version salt serverKey : String)
    (r1 r2 : KeyRecord) (l1 l2 l3 : List KeyRecord)
    (hsalt : salt ≠ "") (hv : Semver.valid version = true)
    (h1r : Semver.satisfies version r1.semver_range = true)
    (h2r : Semver.satisfies version r2.semver_range = true)
    (h1h : calculateHash r1.key_value salt ≠ val)
    (h2h : calculateHash r2.key_value salt = val) :
    checkHandler (some val) (some version) (some salt)
        (l1 ++ r1 :: l2 ++ r2 :: l3) serverKey = authResp serverKey salt := by
  have hval : val ≠ "" := by
    rw [← h2h]; exact calculateHash_ne_empty r2.key_value salt
  rw [checkHandler_wf val version salt serverKey _ hval hsalt hv]
  have hhit : scanHit version salt val (l1 ++ r1 :: l2 ++ r2 :: l3) :=
    ⟨r2, by simp, h2r, h2h⟩
  rw [if_pos ((scanKeys_true_iff version salt val _).mpr hhit)]

set_option maxRecDepth 1000000 in
/-- Witness for C2: two wildcard-compatible records, val built from the second
key; the digests of the two keys are concretely different. -/
theorem checkHandler_scan_complete_witness :
    ("s" : String) ≠ "" ∧ Semver.valid "1.0.0" = true ∧
    Semver.satisfies "1.0.0" "^1.0.0" = true ∧
    Semver.satisfies "1.0.0" "*" = true ∧
    calculateHash "k1" "s" ≠ calculateHash "k2" "s" ∧
    checkHandler (some (calculateHash "k2" "s")) (some "1.0.0") (some "s")
        ([] ++ (⟨"k1", "^1.0.0"⟩ : KeyRecord) :: [] ++ (⟨"k2", "*"⟩ : KeyRecord) :: [])
        "S" = authResp "S" "s" :=
  ⟨by decide, by decide, by decide, by decide, by decide,
   checkHandler_scan_complete (calculateHash "k2" "s") "1.0.0" "s" "S"
     ⟨"k1", "^1.0.0"⟩ ⟨"k2", "*"⟩ [] [] []
     (by decide) (by decide) (by decide) (by decide) (by decide) rfl⟩

/-- C5: the version matcher meets the specification examples, and the
wildcard range accepts every valid version, prereleases included. -/
theorem satisfies_spec_examples :
    Semver.satisfies "1.5.0" "^1.0.0" = true ∧
    Semver.satisfies "2.0.0" "^1.0.0" = false ∧
    Semver.satisfies "2.0.0" ">=2.0.0 <3.0.0" = true ∧
    Semver.satisfies "3.0.0" ">=2.0.0 <3.0.0" = false ∧
    ∀ v : String, Semver.valid v = true → Semver.satisfies v "*" = true := by
  refine ⟨by decide, by decide, by decide, by decide, ?_⟩
  intro v hv
  unfold Semver.valid at hv
  unfold Semver.satisfies
  rcases hp : Semver.parseVersion v with _ | w
  · rw [hp] at hv; simp at hv
  · have hr : Semver.parseRange "*" = some [Semver.RangeClause.star] := rfl
    rw [hr]
    rfl

/-- Witness for C5 at a prerelease version. -/
theorem satisfies_spec_examples_witness :
    Semver.valid "1.2.3-alpha.1" = true ∧
    Semver.satisfies "1.2.3-alpha.1" "*" = true :=
  ⟨by decide, satisfies_spec_examples.2.2.2.2 "1.2.3-alpha.1" (by decide)⟩

/-- C6: a record with a syntactically invalid range never satisfies the
version test, and removing it from anywhere in the list changes neither the
scan result nor the handler response — it is skipped, the scan continues. -/
theorem invalid_range_record_skipped (val version salt serverKey : String)
    (r : KeyRecord) (pre post : List KeyRecord)
    (hr : Semver.validRange r.semver_range = false) :
    Semver.satisfies version r.semver_range = false ∧
    scanKeys version salt val (pre ++ r :: post) =
      scanKeys version salt val (pre ++ post) ∧
    checkHandler (some val) (some version) (some salt) (pre ++ r :: post) serverKey =
      checkHandler (some val) (some version) (some salt) (pre ++ post) serverKey := by
  refine ⟨satisfies_false_of_invalidRange version r.semver_range hr,
    scanKeys_skip_invalid version salt val r pre post hr, ?_⟩
  unfold checkHandler
  simp only [Option.getD_some]
  rw [scanKeys_skip_invalid version salt val r pre post hr]

/-- Witness for C6 with a concrete unparsable range. -/
theorem invalid_range_record_skipped_witness :
    Semver.validRange "bogus" = false ∧
    (Semver.satisfies "1.0.0" "bogus" = false ∧
     scanKeys "1.0.0" "s" "x" ([] ++ (⟨"k", "bogus"⟩ : KeyRecord) :: []) =
       scanKeys "1.0.0" "s" "x" ([] ++ []) ∧
     checkHandler (some "x") (some "1.0.0") (some "s")
         ([] ++ (⟨"k", "bogus"⟩ : KeyRecord) :: []) "S" =
       checkHandler (some "x") (some "1.0.0") (some "s") ([] ++ []) "S") :=
  ⟨by decide,
   invalid_range_record_skipped "x" "1.0.0" "s" "S" ⟨"k", "bogus"⟩ [] [] (by decide)⟩

/-- C10: the checkHandler of src/handlers/check.ts and the variant embedded
in migrations/0001_init.sql answer identically on every request over the same
record sequence, because satisfies is false on an invalid range. -/
theorem checkHandler_eq_ordered (val? version? salt? : Option String)
    (records : List KeyRecord) (serverKey : String) :
    checkHandler val? version? salt? records serverKey =
      checkHandlerOrdered val? version? salt? records serverKey := by
  unfold checkHandler checkHandlerOrdered
  rw [scanKeys_eq_validated]

/-- Witness for C10 on a list holding an invalid-range record. -/
theorem checkHandler_eq_ordered_witness :
    checkHandler (some "x") (some "1.2.0") (some "t")
        [⟨"k1", "bogus"⟩, ⟨"k2", "^1.0.0"⟩] "S" =
      checkHandlerOrdered (some "x") (some "1.2.0") (some "t")
        [⟨"k1", "bogus"⟩, ⟨"k2", "^1.0.0"⟩] "S" :=
  checkHandler_eq_ordered (some "x") (some "1.2.0") (some "t")
    [⟨"k1", "bogus"⟩, ⟨"k2", "^1.0.0"⟩] "S"

theorem falsy_true_iff (o : Option String) :
    falsy o = true ↔ (o = none ∨ o = some "") := by
  cases o with
  | none => simp [falsy]
  | some s => simp [falsy]

theorem falsy_false_iff (o : Option String) :
    falsy o = false ↔ ∃ x, o = some x ∧ x ≠ "" := by
  cases o with
  | none => simp [falsy]
  | some s => simp [falsy]

/-- C3: every 200 answer carries the text/plain content type and a body equal
to the keyed digest of the server secret with the request salt, a 64-character
lowercase-hexadecimal string. -/
theorem checkHandler_success_response (val? version? salt? : Option String)
    (records : List KeyRecord) (serverKey : String)
    (h : (checkHandler val? version? salt? records serverKey).status = 200) :
    ∃ s, salt? = some s ∧ s ≠ "" ∧
      checkHandler val? version? salt? records serverKey =
        ⟨200, calculateHash serverKey s, some "text/plain"⟩ ∧
      (calculateHash serverKey s).length = 64 ∧
      (calculateHash serverKey s).data.all isLowerHexChar = true := by
  unfold checkHandler at h ⊢
  by_cases hm : (falsy val? || falsy version? || falsy salt?) = true
  · rw [if_pos hm] at h; exact absurd h (by decide)
  · rw [if_neg hm] at h ⊢
    by_cases hv : (!Semver.valid (version?.getD "")) = true
    · rw [if_pos hv] at h; exact absurd h (by decide)
    · rw [if_neg hv] at h ⊢
      by_cases hscan :
          (!scanKeys (version?.getD "") (salt?.getD "") (val?.getD "") records) = true
      · rw [if_pos hscan] at h; exact absurd h (by decide)
      · rw [if_neg hscan]
        have hsalt : falsy salt? = false := by
          cases hfs : falsy salt? with
          | false => rfl
          | true => exact absurd (by rw [hfs]; simp) hm
        obtain ⟨s, hs, hsne⟩ := (falsy_false_iff salt?).mp hsalt
        refine ⟨s, hs, hsne, ?_, calculateHash_length serverKey s, ?_⟩
        · rw [hs]; rfl
        · rw [List.all_eq_true]
          intro c hc
          exact calculateHash_lowerHex serverKey s c hc

set_option maxRecDepth 1000000 in
/-- Witness for C3 at a concrete authenticated request. -/
theorem checkHandler_success_response_witness :
    (checkHandler (some (calculateHash "k1" "s")) (some "1.0.0") (some "s")
        [⟨"k1", "*"⟩] "S").status = 200 ∧
    ∃ s, (some "s" : Option String) = some s ∧ s ≠ "" ∧
      checkHandler (some (calculateHash "k1" "s")) (some "1.0.0") (some "s")
          [⟨"k1", "*"⟩] "S" = ⟨200, calculateHash "S" s, some "text/plain"⟩ ∧
      (calculateHash "S" s).length = 64 ∧
      (calculateHash "S" s).data.all isLowerHexChar = true :=
  ⟨by decide,
   checkHandler_success_response (some (calculateHash "k1" "s")) (some "1.0.0")
     (some "s") [⟨"k1", "*"⟩] "S" (by decide)⟩

theorem resp_ne_of_status (a b : Resp) (h : a.status ≠ b.status) : a ≠ b :=
  fun he => h (congrArg Resp.status he)

theorem resp_ne_of_body (a b : Resp) (h : a.body ≠ b.body) : a ≠ b :=
  fun he => h (congrArg Resp.body he)

theorem checkHandler_missing (val? version? salt? : Option String)
    (records : List KeyRecord) (serverKey : String)
    (h : (falsy val? || falsy version? || falsy salt?) = true) :
    checkHandler val? version? salt? records serverKey = missingParamsResp := by
  unfold checkHandler; rw [if_pos h]

theorem checkHandler_invalidVersion (val? version? salt? : Option String)
    (records : List KeyRecord) (serverKey : String)
    (h1 : (falsy val? || falsy version? || falsy salt?) = false)
    (h2 : Semver.valid (version?.getD "") = false) :
    checkHandler val? version? salt? records serverKey = invalidVersionResp := by
  unfold checkHandler
  rw [if_neg (by simp [h1]), if_pos (by simp [h2])]

theorem checkHandler_ne_400 (val? version? salt? : Option String)
    (records : List KeyRecord) (serverKey : String)
    (h1 : (falsy val? || falsy version? || falsy salt?) = false)
    (h2 : Semver.valid (version?.getD "") = true) :
    checkHandler val? version? salt? records serverKey ≠ missingParamsResp ∧
    checkHandler val? version? salt? records serverKey ≠ invalidVersionResp := by
  unfold checkHandler
  rw [if_neg (by simp [h1]), if_neg (by simp [h2])]
  by_cases hs :
      (!scanKeys (version?.getD "") (salt?.getD "") (val?.getD "") records) = true
  · rw [if_pos hs]
    exact ⟨resp_ne_of_status _ _ (by decide), resp_ne_of_status _ _ (by decide)⟩
  · rw [if_neg hs]
    exact ⟨resp_ne_of_status _ _ (by simp [authResp, missingParamsResp]),
      resp_ne_of_status _ _ (by simp [authResp, invalidVersionResp])⟩

/-- C4: the handler answers 400 with the missing-parameters body exactly when
val, version or salt is absent or empty; it answers 400 with the
invalid-version body exactly when all three are present and non-empty but the
version does not parse; the two bodies differ, and in either case the record
store plays no part in the answer. -/
theorem checkHandler_400_classes (val? version? salt? : Option String)
    (records : List KeyRecord) (serverKey : String) :
    (checkHandler val? version? salt? records serverKey = missingParamsResp ↔
      (val? = none ∨ val? = some "") ∨ (version? = none ∨ version? = some "") ∨
      (salt? = none ∨ salt? = some "")) ∧
    (checkHandler val? version? salt? records serverKey = invalidVersionResp ↔
      ∃ v vr s, val? = some v ∧ v ≠ "" ∧ version? = some vr ∧ vr ≠ "" ∧
        salt? = some s ∧ s ≠ "" ∧ Semver.valid vr = false) ∧
    missingParamsResp.status = 400 ∧ invalidVersionResp.status = 400 ∧
    missingParamsResp.body ≠ invalidVersionResp.body ∧
    (checkHandler val? version? salt? records serverKey = missingParamsResp ∨
      checkHandler val? version? salt? records serverKey = invalidVersionResp →
      checkHandler val? version? salt? records serverKey =
        checkHandler val? version? salt? [] serverKey) := by
  have hbody : missingParamsResp.body ≠ invalidVersionResp.body := by decide
  cases hm : (falsy val? || falsy version? || falsy salt?) with
  | true =>
    have hh : ∀ rs : List KeyRecord,
        checkHandler val? version? salt? rs serverKey = missingParamsResp :=
      fun rs => checkHandler_missing val? version? salt? rs serverKey hm
    have hor : (falsy val? = true ∨ falsy version? = true) ∨ falsy salt? = true := by
      simpa [Bool.or_eq_true] using hm
    have hRHS : (val? = none ∨ val? = some "") ∨ (version? = none ∨ version? = some "") ∨
        (salt? = none ∨ salt? = some "") := by
      rcases hor with (h | h) | h
      · exact Or.inl ((falsy_true_iff val?).mp h)
      · exact Or.inr (Or.inl ((falsy_true_iff version?).mp h))
      · exact Or.inr (Or.inr ((falsy_true_iff salt?).mp h))
    refine ⟨⟨fun _ => hRHS, fun _ => hh records⟩, ⟨?_, ?_⟩, rfl, rfl, hbody, ?_⟩
    · intro he
      rw [hh records] at he
      exact absurd (congrArg Resp.body he) hbody
    · rintro ⟨v, vr, s, hv, hvne, hvr, hvrne, hs, hsne, -⟩
      rw [hv, hvr, hs] at hm
      simp [falsy, hvne, hvrne, hsne] at hm
    · intro _; rw [hh records, hh []]
  | false =>
    have hfv : falsy val? = false ∧ falsy version? = false ∧ falsy salt? = false := by
      revert hm
      cases falsy val? <;> cases falsy version? <;> cases falsy salt? <;> simp
    obtain ⟨hfval, hfver, hfsalt⟩ := hfv
    obtain ⟨v, hv, hvne⟩ := (falsy_false_iff val?).mp hfval
    obtain ⟨vr, hvr, hvrne⟩ := (falsy_false_iff version?).mp hfver
    obtain ⟨s, hs, hsne⟩ := (falsy_false_iff salt?).mp hfsalt
    have hnotmiss : ¬((val? = none ∨ val? = some "") ∨
        (version? = none ∨ version? = some "") ∨ (salt? = none ∨ salt? = some "")) := by
      rintro ((h | h) | (h | h) | (h | h)) <;>
        simp_all [falsy]
    cases hval : Semver.valid (version?.getD "") with
    | false =>
      have hh : ∀ rs : List KeyRecord,
          checkHandler val? version? salt? rs serverKey = invalidVersionResp :=
        fun rs => checkHandler_invalidVersion val? version? salt? rs serverKey hm hval
      refine ⟨⟨?_, fun h => absurd h hnotmiss⟩,
        ⟨fun _ => ?_, fun _ => hh records⟩, rfl, rfl, hbody, ?_⟩
      · intro he
        rw [hh records] at he
        exact absurd (congrArg Resp.body he).symm hbody
      · refine ⟨v, vr, s, hv, hvne, hvr, hvrne, hs, hsne, ?_⟩
        rw [hvr] at hval
        exact hval
      · intro _; rw [hh records, hh []]
    | true =>
      obtain ⟨hne1, hne2⟩ :=
        checkHandler_ne_400 val? version? salt? records serverKey hm hval
      refine ⟨⟨fun h => absurd h hne1, fun h => absurd h hnotmiss⟩,
        ⟨fun h => absurd h hne2, ?_⟩, rfl, rfl, hbody, ?_⟩
      · rintro ⟨v2, vr2, s2, -, -, hvr2, -, -, -, hval2⟩
        rw [hvr2] at hval
        simp only [Option.getD_some] at hval
        rw [hval] at hval2
        cases hval2
      · rintro (h | h)
        · exact absurd h hne1
        · exact absurd h hne2

/-- Witness for C4 at a request missing its val parameter. -/
theorem checkHandler_400_classes_witness :
    (checkHandler none (some "1.0.0") (some "s") [] "S" = missingParamsResp ↔
      ((none : Option String) = none ∨ (none : Option String) = some "") ∨
      ((some "1.0.0" : Option String) = none ∨ (some "1.0.0" : Option String) = some "") ∨
      ((some "s" : Option String) = none ∨ (some "s" : Option String) = some "")) ∧
    (checkHandler none (some "1.0.0") (some "s") [] "S" = invalidVersionResp ↔
      ∃ v vr s, (none : Option String) = some v ∧ v ≠ "" ∧
        (some "1.0.0" : Option String) = some vr ∧ vr ≠ "" ∧
        (some "s" : Option String) = some s ∧ s ≠ "" ∧ Semver.valid vr = false) ∧
    missingParamsResp.status = 400 ∧ invalidVersionResp.status = 400 ∧
    missingParamsResp.body ≠ invalidVersionResp.body ∧
    (checkHandler none (some "1.0.0") (some "s") [] "S" = missingParamsResp ∨
      checkHandler none (some "1.0.0") (some "s") [] "S" = invalidVersionResp →
      checkHandler none (some "1.0.0") (some "s") [] "S" =
        checkHandler none (some "1.0.0") (some "s") [] "S") :=
  checkHandler_400_classes none (some "1.0.0") (some "s") [] "S"

/-- C7: with a failing store and a well-formed request the error escapes the
handler untouched and the outer boundary maps it to the generic 500, which
differs from the 403 and both 400 responses; a malformed request is answered
synchronously even when the store would fail, and a successful store read
never raises. -/
theorem storeFailure_boundary (val? version? salt? : Option String)
    (records : List KeyRecord) (serverKey e : String) :
    ((falsy val? || falsy version? || falsy salt?) = false →
      Semver.valid (version?.getD "") = true →
      checkHandlerE val? version? salt? (.error e) serverKey = .error e ∧
      fetchCheck val? version? salt? (.error e) serverKey = serverErrorResp) ∧
    ((falsy val? || falsy version? || falsy salt?) = true →
      checkHandlerE val? version? salt? (.error e) serverKey = .ok missingParamsResp) ∧
    ((falsy val? || falsy version? || falsy salt?) = false →
      Semver.valid (version?.getD "") = false →
      checkHandlerE val? version? salt? (.error e) serverKey = .ok invalidVersionResp) ∧
    checkHandlerE val? version? salt? (.ok records) serverKey =
      .ok (checkHandler val? version? salt? records serverKey) ∧
    serverErrorResp.status = 500 ∧ serverErrorResp ≠ deniedResp ∧
    serverErrorResp ≠ missingParamsResp ∧ serverErrorResp ≠ invalidVersionResp := by
  refine ⟨?_, ?_, ?_, ?_, rfl,
    resp_ne_of_status _ _ (by decide), resp_ne_of_status _ _ (by decide),
    resp_ne_of_status _ _ (by decide)⟩
  · intro h1 h2
    have he : checkHandlerE val? version? salt? (.error e) serverKey = .error e := by
      unfold checkHandlerE
      rw [if_neg (by simp [h1]), if_neg (by simp [h2])]
    refine ⟨he, ?_⟩
    unfold fetchCheck
    rw [he]
  · intro h1
    unfold checkHandlerE
    rw [if_pos h1]
  · intro h1 h2
    unfold checkHandlerE
    rw [if_neg (by simp [h1]), if_pos (by simp [h2])]
  · by_cases hm : (falsy val? || falsy version? || falsy salt?) = true
    · unfold checkHandlerE checkHandler
      rw [if_pos hm, if_pos hm]
    · by_cases hv : (!Semver.valid (version?.getD "")) = true
      · unfold checkHandlerE checkHandler
        rw [if_neg hm, if_neg hm, if_pos hv, if_pos hv]
      · by_cases hs :
            (!scanKeys (version?.getD "") (salt?.getD "") (val?.getD "") records) = true
        · simp [checkHandlerE, checkHandler, hm, hv, hs]
        · simp [checkHandlerE, checkHandler, hm, hv, hs]

/-- Witness for C7 at a concrete well-formed request and failing store. -/
theorem storeFailure_boundary_witness :
    (falsy (some "x") || falsy (some "1.0.0") || falsy (some "s")) = false ∧
    Semver.valid "1.0.0" = true ∧
    checkHandlerE (some "x") (some "1.0.0") (some "s") (.error "db down") "S" =
      .error "db down" ∧
    fetchCheck (some "x") (some "1.0.0") (some "s") (.error "db down") "S" =
      serverErrorResp ∧
    checkHandlerE (some "x") (some "1.0.0") (some "s") (.ok []) "S" =
      .ok (checkHandler (some "x") (some "1.0.0") (some "s") [] "S") :=
  have h := storeFailure_boundary (some "x") (some "1.0.0") (some "s") [] "S" "db down"
  ⟨by decide, by decide, (h.1 (by decide) (by decide)).1,
   (h.1 (by decide) (by decide)).2, h.2.2.2.1⟩

/-- C9: verification mutates nothing — the record set after the call is the
record set before it, a second identical call on the resulting state answers
identically, and the response agrees with the pure handler. -/
theorem verification_no_mutation (val? version? salt? : Option String)
    (st : List KeyRecord) (serverKey : String) :
    (checkHandlerSt val? version? salt? st serverKey).2 = st ∧
    checkHandlerSt val? version? salt?
        ((checkHandlerSt val? version? salt? st serverKey).2) serverKey =
      checkHandlerSt val? version? salt? st serverKey ∧
    (checkHandlerSt val? version? salt? st serverKey).1 =
      checkHandler val? version? salt? st serverKey := by
  have h2 : (checkHandlerSt val? version? salt? st serverKey).2 = st := by
    unfold checkHandlerSt
    split_ifs <;> rfl
  refine ⟨h2, by rw [h2], ?_⟩
  unfold checkHandlerSt checkHandler
  split_ifs <;> rfl

/-- Witness for C9 at a concrete request and store. -/
theorem verification_no_mutation_witness :
    (checkHandlerSt (some "x") (some "1.0.0") (some "s") [⟨"k", "*"⟩] "S").2 =
      [(⟨"k", "*"⟩ : KeyRecord)] ∧
    checkHandlerSt (some "x") (some "1.0.0") (some "s")
        ((checkHandlerSt (some "x") (some "1.0.0") (some "s") [⟨"k", "*"⟩] "S").2) "S" =
      checkHandlerSt (some "x") (some "1.0.0") (some "s") [⟨"k", "*"⟩] "S" ∧
    (checkHandlerSt (some "x") (some "1.0.0") (some "s") [⟨"k", "*"⟩] "S").1 =
      checkHandler (some "x") (some "1.0.0") (some "s") [⟨"k", "*"⟩] "S" :=
  verification_no_mutation (some "x") (some "1.0.0") (some "s") [⟨"k", "*"⟩] "S"
